import Mathlib

/-!
Verification of the relation-resolution and entailment-graph engine of the
RAGScope dashboard.

The development shallowly embeds the TypeScript core:

* `relAt` — the relation-matrix resolver (src/frontend/src/utils/relations.ts);
* `isIrrelevantFromCounts` / `isIrrelevantFromSets` — the irrelevance
  predicates (same file);
* `mapRelToStatus`, `mapDirectStatuses`, `chunkStatusForSets`,
  `usageStatusForSets`, `getClaimSetsForChunk`, `extractClaims`,
  `supportedByChunk`, the per-chunk filter flags and the chunk summary
  counts (src/frontend/src/components/QuestionInspector.tsx);
* the hover neighborhood selection of the connector overlay
  (src/frontend/src/components/ClaimChunkOverlay.tsx).

JavaScript values flowing through the untyped parts of the code are modelled
by the inductive type `JVal` (`undefined` is modelled as `Option.none` at use
sites, since it marks absence rather than a stored value).  JavaScript
numbers are modelled as integers: every number the embedded code ever
compares or indexes with is an array length or an array index.  The host
functions the code calls — `JSON.parse`, `JSON.stringify`,
`String(...)`, `toLowerCase`, `trim` — are modelled by executable Lean
functions over the same `JVal` type (`toLowerCase` is modelled
per-character, which agrees with JavaScript on the ASCII labels the data
uses; JSON numbers are modelled as integers, which is enough for the claim
payloads, whose leaves are strings).
-/

/-- A JavaScript value as it appears in the loosely-typed data the dashboard
consumes: `null`, booleans, (integer) numbers, strings, arrays and plain
objects with named fields. -/
inductive JVal where
  | null : JVal
  | bool : Bool → JVal
  | num : Int → JVal
  | str : String → JVal
  | arr : List JVal → JVal
  | obj : List (String × JVal) → JVal
  deriving Repr

mutual

/-- Structural boolean equality on `JVal`. -/
def JVal.beq : JVal → JVal → Bool
  | .null, .null => true
  | .bool a, .bool b => a == b
  | .num a, .num b => a == b
  | .str a, .str b => a == b
  | .arr a, .arr b => JVal.beqList a b
  | .obj a, .obj b => JVal.beqFields a b
  | _, _ => false

/-- Pointwise `JVal.beq` on lists. -/
def JVal.beqList : List JVal → List JVal → Bool
  | [], [] => true
  | x :: xs, y :: ys => JVal.beq x y && JVal.beqList xs ys
  | _, _ => false

/-- Pointwise `JVal.beq` on field lists. -/
def JVal.beqFields : List (String × JVal) → List (String × JVal) → Bool
  | [], [] => true
  | (k, x) :: xs, (l, y) :: ys => k == l && JVal.beq x y && JVal.beqFields xs ys
  | _, _ => false

end

mutual

theorem JVal.beq_iff : ∀ (a b : JVal), JVal.beq a b = true ↔ a = b
  | .null, b => by cases b <;> simp [JVal.beq]
  | .bool a, b => by cases b <;> simp [JVal.beq]
  | .num a, b => by cases b <;> simp [JVal.beq]
  | .str a, b => by cases b <;> simp [JVal.beq]
  | .arr a, b => by
      cases b <;> simp [JVal.beq]
      exact JVal.beqList_iff a _
  | .obj a, b => by
      cases b <;> simp [JVal.beq]
      exact JVal.beqFields_iff a _

theorem JVal.beqList_iff : ∀ (a b : List JVal), JVal.beqList a b = true ↔ a = b
  | [], b => by cases b <;> simp [JVal.beqList]
  | x :: xs, b => by
      cases b with
      | nil => simp [JVal.beqList]
      | cons y ys =>
        simp [JVal.beqList, JVal.beq_iff x y, JVal.beqList_iff xs ys]

theorem JVal.beqFields_iff :
    ∀ (a b : List (String × JVal)), JVal.beqFields a b = true ↔ a = b
  | [], b => by cases b <;> simp [JVal.beqFields]
  | (k, x) :: xs, b => by
      cases b with
      | nil => simp [JVal.beqFields]
      | cons y ys =>
        obtain ⟨l, v⟩ := y
        simp [JVal.beqFields, JVal.beq_iff x v, JVal.beqFields_iff xs ys, and_assoc]

end

instance : DecidableEq JVal := fun a b =>
  decidable_of_iff (JVal.beq a b = true) (JVal.beq_iff a b)

/-- JavaScript truthiness of a value. -/
def jTruthy : JVal → Bool
  | .null => false
  | .bool b => b
  | .num n => n != 0
  | .str s => s != ""
  | .arr _ => true
  | .obj _ => true

/-- JavaScript truthiness of a possibly-`undefined` value (`undefined` is
`none` and is falsy). -/
def jOptTruthy : Option JVal → Bool
  | none => false
  | some v => jTruthy v

/-- JavaScript indexed access `xs[i]` on an array, for a possibly negative
index: `undefined` (`none`) when out of range. -/
def jGet (xs : List JVal) (i : Int) : Option JVal :=
  if 0 ≤ i then xs.get? i.toNat else none

/-- The coercion `Array.isArray(v) ? v : []` used throughout the component. -/
def jAsArr : JVal → List JVal
  | .arr l => l
  | _ => []

mutual

/-- The JavaScript string conversion `String(v)`: arrays join their elements
with commas (`null` elements become empty), objects print as
`[object Object]`. -/
def jsToString : JVal → String
  | .null => "null"
  | .bool true => "true"
  | .bool false => "false"
  | .num n => toString n
  | .str s => s
  | .arr l => jsJoinElems l
  | .obj _ => "[object Object]"

/-- `Array.prototype.join` with the default comma separator, as invoked by
`String(...)` on an array. -/
def jsJoinElems : List JVal → String
  | [] => ""
  | [JVal.null] => ""
  | [v] => jsToString v
  | JVal.null :: l => "," ++ jsJoinElems l
  | v :: l => jsToString v ++ "," ++ jsJoinElems l

end

/-- Per-character lower casing, modelling `toLowerCase` on the ASCII relation
labels. -/
def jsLower (s : String) : String := String.mk (s.data.map Char.toLower)

/-- Whitespace recognized by `trim` and by the JSON grammar. -/
def isJsWs (c : Char) : Bool := c = ' ' || c = '\t' || c = '\n' || c = '\r'

/-- Drop leading JSON/JS whitespace from a character list. -/
def skipWs : List Char → List Char
  | [] => []
  | c :: cs => if isJsWs c then skipWs cs else c :: cs

/-- The string `trim()` method, modelled on the character list. -/
def jsTrimList (l : List Char) : List Char :=
  ((skipWs ((skipWs l).reverse)).reverse)

/-- The string `trim()` method. -/
def jsTrim (s : String) : String := String.mk (jsTrimList s.data)

/-- One fallback step of the resolver: if the length of `m` equals the
supplied count, index `m` by `rowIdx` and, when that row is an array, return
its `colIdx` cell (possibly `undefined`).  An outer `none` means the step did
not fire and the resolver falls through. -/
def relByRow (m : List JVal) (rowIdx colIdx : Int) (cnt : Option Int) :
    Option (Option JVal) :=
  match cnt with
  | some c =>
    if (m.length : Int) = c then
      match jGet m rowIdx with
      | some (.arr row) => some (jGet row colIdx)
      | _ => none
    else none
  | none => none

/-- First-row heuristic step of the resolver: if the length of the first row
equals the supplied count, index `m` by `rowIdx` and return that row's
`colIdx` cell when the row is an array. -/
def relByFirst (m : List JVal) (rowIdx colIdx : Int) (firstLen : Int)
    (cnt : Option Int) : Option (Option JVal) :=
  match cnt with
  | some c =>
    if firstLen = c then
      match jGet m rowIdx with
      | some (.arr row) => some (jGet row colIdx)
      | _ => none
    else none
  | none => none

/-- Positional fallback step of the resolver: index `m` by `rowIdx` and
return the `colIdx` cell when that row is an array whose length exceeds
`colIdx`. -/
def relDirect (m : List JVal) (rowIdx colIdx : Int) : Option (Option JVal) :=
  match jGet m rowIdx with
  | some (.arr row) => if colIdx < (row.length : Int) then some (jGet row colIdx) else none
  | _ => none

/-- The relation-matrix resolver `relAt` of src/frontend/src/utils/relations.ts:
an ordered fallback chain over a matrix of ambiguous orientation.  Counts are
`Option Int` (`undefined` is `none`); the result is the cell value or
`undefined` (`none`).  The `try/catch` of the source can never fire in this
total model. -/
def relAt (matrix : JVal) (chunkIdx claimIdx : Int)
    (chunkCount claimCount : Option Int) : Option JVal :=
  match matrix with
  | .arr m =>
    (relByRow m chunkIdx claimIdx chunkCount
      <|> relByRow m claimIdx chunkIdx claimCount
      <|> (match m.head? with
           | some (.arr first) =>
             relByFirst m chunkIdx claimIdx (first.length : Int) claimCount
               <|> relByFirst m claimIdx chunkIdx (first.length : Int) chunkCount
           | _ => none)
      <|> relDirect m chunkIdx claimIdx
      <|> relDirect m claimIdx chunkIdx).getD none
  | _ => none

/-- Cell lookup in an abstract (Lean-level) matrix of cells. -/
def cellAt (m : List (List JVal)) (i j : Nat) : Option JVal :=
  (m.get? i).bind (fun r => r.get? j)

/-- The `JVal` encoding of an abstract matrix: an array of array rows. -/
def matVal (m : List (List JVal)) : JVal := .arr (m.map .arr)

/-- The irrelevance predicate on raw counts
(src/frontend/src/utils/relations.ts): each count is coerced with
`Number(x) || 0` (so a missing count becomes `0`) and clamped to be
non-negative with `Math.max(0, _)`. -/
def isIrrelevantFromCounts (gtEntailments gtNeutrals gtContradictions : Option Int) :
    Bool :=
  let e := max 0 (gtEntailments.getD 0)
  let n := max 0 (gtNeutrals.getD 0)
  let c := max 0 (gtContradictions.getD 0)
  e == 0 && c == 0 && decide (0 < n)

/-- The three claim-title lists collected for one direction (ground truth or
response) of one chunk. -/
structure ClaimSets3 where
  entailments : List String
  contradictions : List String
  neutrals : List String
  deriving DecidableEq, Repr

/-- The claim sets collected for one chunk: ground-truth direction and
response direction. -/
structure ClaimSets where
  gt : ClaimSets3
  response : ClaimSets3
  deriving DecidableEq, Repr

/-- The irrelevance predicate on claim-set arrays
(src/frontend/src/utils/relations.ts, `isIrrelevantFromSets`): the counts are
the lengths of the ground-truth claim lists.  The `Array.isArray` guards and
the `try/catch` of the source cannot fire in this typed model. -/
def isIrrelevantFromSets (sets : ClaimSets) : Bool :=
  let e := sets.gt.entailments.length
  let n := sets.gt.neutrals.length
  let c := sets.gt.contradictions.length
  e == 0 && c == 0 && decide (0 < n)

/-- Per-claim disposition labels of QuestionInspector.tsx. -/
inductive ClaimStatus where
  | entailed : ClaimStatus
  | neutral : ClaimStatus
  | contradiction : ClaimStatus
  deriving DecidableEq, Repr

/-- The coalescing `rel ?? ''` applied before `String(...)` in
`mapRelToStatus`: `undefined` and `null` become the empty string. -/
def jsCoalesceEmpty : Option JVal → JVal
  | none => .str ("")
  | some .null => .str ("")
  | some v => v

/-- `mapRelToStatus` of QuestionInspector.tsx: lower-case the string form of
the relation value and map `entailment` / `contradiction` to the matching
status, everything else to `neutral`. -/
def mapRelToStatus (rel : Option JVal) : ClaimStatus :=
  let s := jsLower (jsToString (jsCoalesceEmpty rel))
  if s = "entailment" then .entailed
  else if s = "contradiction" then .contradiction
  else .neutral

/-- The relation value `mapDirectStatuses` inspects at position `i`: the
stored cell of the (array-coerced) relation store, replaced by its first
element when the cell is itself a list (`Array.isArray(raw) ? raw[0] : raw`). -/
def firstDirectCell (relations : JVal) (i : Nat) : Option JVal :=
  match (jAsArr relations).get? i with
  | some (.arr l) => l.get? 0
  | raw => raw

/-- `mapDirectStatuses` of QuestionInspector.tsx: for each of the first
`targetLen` positions, take the stored relation (the first element when the
stored cell is itself a list) and map it with `mapRelToStatus`. -/
def mapDirectStatuses (relations : JVal) (targetLen : Nat) : List ClaimStatus :=
  (List.range targetLen).map (fun i => mapRelToStatus (firstDirectCell relations i))

/-- Chunk quality labels of QuestionInspector.tsx. -/
inductive ChunkStatus where
  | relevant : ChunkStatus
  | irrelevant : ChunkStatus
  | harming : ChunkStatus
  deriving DecidableEq, Repr

/-- `chunkStatusForSets` of QuestionInspector.tsx: `harming` when any
ground-truth contradiction exists, else `relevant` when any ground-truth
entailment exists, else `irrelevant`. -/
def chunkStatusForSets (sets : ClaimSets) : ChunkStatus :=
  let ent := sets.gt.entailments.length
  let con := sets.gt.contradictions.length
  if 0 < con then .harming
  else if 0 < ent then .relevant
  else .irrelevant

/-- Chunk usage labels of QuestionInspector.tsx. -/
inductive UsageStatus where
  | grounded : UsageStatus
  | unused : UsageStatus
  | contradicting : UsageStatus
  deriving DecidableEq, Repr

/-- `usageStatusForSets` of QuestionInspector.tsx: `contradicting` when any
response contradiction exists, else `grounded` when any response entailment
exists, else `unused`. -/
def usageStatusForSets (sets : ClaimSets) : UsageStatus :=
  let ent := sets.response.entailments.length
  let con := sets.response.contradictions.length
  if 0 < con then .contradicting
  else if 0 < ent then .grounded
  else .unused

/-- `pushByRel` of `getClaimSetsForChunk` (QuestionInspector.tsx): skip a
falsy claim title or a falsy relation, then append the claim title to the
list matching the relation string (exact, case-sensitive match). -/
def pushByRel (target : ClaimSets3) (rel : Option JVal) (claim : String) :
    ClaimSets3 :=
  if claim = "" || !(jOptTruthy rel) then target
  else
    match rel with
    | some (.str ("Entailment")) =>
        { target with entailments := target.entailments ++ [claim] }
    | some (.str ("Contradiction")) =>
        { target with contradictions := target.contradictions ++ [claim] }
    | some (.str ("Neutral")) =>
        { target with neutrals := target.neutrals ++ [claim] }
    | _ => target

/-- One direction of `getClaimSetsForChunk`: walk the claim list in order,
resolve each relation with `relAt` and push the claim title by relation. -/
def buildSets (claims : List String) (mat : JVal) (chunkIndex : Nat)
    (chunkCount : Nat) : ClaimSets3 :=
  (List.range claims.length).foldl
    (fun acc (i : Nat) =>
      pushByRel acc
        (relAt mat (chunkIndex : Int) (i : Int)
          (some (chunkCount : Int)) (some (claims.length : Int)))
        (claims.getD i ("")))
    ⟨[], [], []⟩

/-- `getClaimSetsForChunk` of QuestionInspector.tsx: the matrices are first
coerced with `Array.isArray(x) ? x : []`, then the ground-truth and response
claim lists are classified against their matrices. -/
def getClaimSetsForChunk (gtClaims respClaims : List String) (r2a r2r : JVal)
    (chunkCount : Nat) (chunkIndex : Nat) : ClaimSets :=
  { gt := buildSets gtClaims (.arr (jAsArr r2a)) chunkIndex chunkCount
    response := buildSets respClaims (.arr (jAsArr r2r)) chunkIndex chunkCount }

/-- The six filter facets computed per chunk in QuestionInspector.tsx: the
quality facet is the chunk status, the usage facets are computed from the
response claim-set lengths (`unused` is entailments length zero, independent
of contradictions). -/
structure ChunkFlags where
  relevant : Bool
  irrelevant : Bool
  harming : Bool
  grounded : Bool
  unused : Bool
  contradicting : Bool
  deriving DecidableEq, Repr

/-- The `flags` record of the chunk renderer in QuestionInspector.tsx. -/
def chunkFlags (sets : ClaimSets) : ChunkFlags :=
  let status := chunkStatusForSets sets
  { relevant := status == .relevant
    irrelevant := status == .irrelevant
    harming := status == .harming
    grounded := decide (0 < sets.response.entailments.length)
    unused := sets.response.entailments.length == 0
    contradicting := decide (0 < sets.response.contradictions.length) }

/-- The chunk summary counters of QuestionInspector.tsx. -/
structure ChunkSummary where
  rel : Nat
  irr : Nat
  harm : Nat
  grounded : Nat
  unused : Nat
  respContr : Nat
  deriving DecidableEq, Repr

/-- The chunk summary row of QuestionInspector.tsx: fold over all chunk
indices, incrementing each counter from that chunk's claim sets. -/
def chunkSummary (gtClaims respClaims : List String) (r2a r2r : JVal)
    (numChunks : Nat) : ChunkSummary :=
  (List.range numChunks).foldl
    (fun acc idx =>
      let sets := getClaimSetsForChunk gtClaims respClaims r2a r2r numChunks idx
      { rel := acc.rel + (if 0 < sets.gt.entailments.length then 1 else 0)
        irr := acc.irr + (if isIrrelevantFromSets sets then 1 else 0)
        harm := acc.harm + (if 0 < sets.gt.contradictions.length then 1 else 0)
        grounded := acc.grounded + (if 0 < sets.response.entailments.length then 1 else 0)
        unused := acc.unused + (if sets.response.entailments.length = 0 then 1 else 0)
        respContr := acc.respContr + (if 0 < sets.response.contradictions.length then 1 else 0) })
    ⟨0, 0, 0, 0, 0, 0⟩

/-- The coalescing `rel || ''` applied before `String(...)` in the
per-response-claim chunk-support scan: any falsy value becomes the empty
string. -/
def jsOrEmpty : Option JVal → JVal
  | none => .str ("")
  | some v => if jTruthy v then v else .str ("")

/-- The `supportedByChunk` scan of QuestionInspector.tsx: a response claim
`i` is supported when some chunk position `j` resolves to a relation whose
lower-cased string form is `entailment`. -/
def supportedByChunk (r2r : JVal) (chunkCount claimCount i : Nat) : Bool :=
  (List.range chunkCount).any (fun j =>
    jsLower (jsToString (jsOrEmpty
      (relAt (.arr (jAsArr r2r)) (j : Int) (i : Int)
        (some (chunkCount : Int)) (some (claimCount : Int))))) == "entailment")

/-- The three node columns of the connector overlay
(ClaimChunkOverlay.tsx): ground-truth claims, chunks, response claims. -/
inductive Col where
  | gt : Col
  | chunk : Col
  | resp : Col
  deriving DecidableEq, Repr

/-- A node identity of the connector graph: column plus index. -/
structure GNode where
  col : Col
  index : Nat
  deriving DecidableEq, Repr

/-- A connector edge as stored in `pathsOut` (only the `src` / `dst` node
identities matter for hover selection; geometry and styling are ignored
here).  Both endpoints are always set when an edge is pushed. -/
structure Edge where
  src : GNode
  dst : GNode
  deriving DecidableEq, Repr

/-- The index-collection idiom `paths.map((p, idx) => cond ? idx : -1)
.filter(i => i >= 0)` of ClaimChunkOverlay.tsx, with the running index made
explicit. -/
def idxWhereFrom (n : Nat) (f : Edge → Bool) : List Edge → List Nat
  | [] => []
  | p :: ps =>
    if f p then n :: idxWhereFrom (n + 1) f ps else idxWhereFrom (n + 1) f ps

/-- The indices of the edges satisfying `f`, in order. -/
def idxWhere (paths : List Edge) (f : Edge → Bool) : List Nat :=
  idxWhereFrom 0 f paths

/-- Deduplication keeping the first occurrence, as performed by
`Array.from(new Set([...]))` (JavaScript `Set` preserves first-insertion
order). -/
def dedupFirstAux (seen : List Nat) : List Nat → List Nat
  | [] => []
  | x :: xs =>
    if x ∈ seen then dedupFirstAux seen xs
    else x :: dedupFirstAux (x :: seen) xs

/-- Deduplication keeping the first occurrence. -/
def dedupFirst (l : List Nat) : List Nat := dedupFirstAux [] l

/-- Hover selection for a ground-truth claim `gi` (ClaimChunkOverlay.tsx,
`attachHover` on `gtNodes`): the edges whose source is the hovered claim,
plus every edge whose source is a chunk that one of those direct edges
targets. -/
def hoverGTSel (paths : List Edge) (gi : Nat) : List Nat :=
  let direct := idxWhere paths (fun p => p.src.col == .gt && p.src.index == gi)
  let chunkIdxs := direct.filterMap (fun i =>
    (paths.get? i).bind (fun p =>
      if p.dst.col == .chunk then some p.dst.index else none))
  let chain := idxWhere paths
    (fun p => p.src.col == .chunk && chunkIdxs.contains p.src.index)
  dedupFirst (direct ++ chain)

/-- Hover selection for a chunk `ci` (ClaimChunkOverlay.tsx, `attachHover` on
chunk nodes): exactly the edges having the chunk as source or target. -/
def hoverChunkSel (paths : List Edge) (ci : Nat) : List Nat :=
  idxWhere paths (fun p =>
    (p.src.col == .chunk && p.src.index == ci)
      || (p.dst.col == .chunk && p.dst.index == ci))

/-- Hover selection for a response claim `ri` (ClaimChunkOverlay.tsx,
`attachHover` on `respNodes`): the edges whose target is the hovered claim,
plus every edge whose target is a chunk that one of those direct edges has as
source. -/
def hoverRespSel (paths : List Edge) (ri : Nat) : List Nat :=
  let direct := idxWhere paths (fun p => p.dst.col == .resp && p.dst.index == ri)
  let chunkIdxs := direct.filterMap (fun i =>
    (paths.get? i).bind (fun p =>
      if p.src.col == .chunk then some p.src.index else none))
  let chain := idxWhere paths
    (fun p => p.dst.col == .chunk && chunkIdxs.contains p.dst.index)
  dedupFirst (direct ++ chain)

/-- Whether an edge touches a node. -/
def touches (p : Edge) (v : GNode) : Bool := p.src == v || p.dst == v

/-- Modelled from the claim wording, for comparison with the implementation:
the set of edges directly touching the hovered node together with every edge
touching any node reachable in exactly one more hop through a
directly-touching edge. -/
def specTwoHopSel (paths : List Edge) (v : GNode) : List Nat :=
  (List.range paths.length).filter (fun i =>
    match paths.get? i with
    | some p =>
        touches p v
          || paths.any (fun q => touches q v && (touches p q.src || touches p q.dst))
    | none => false)

/-- The value of a hexadecimal digit character (JSON accepts both cases). -/
def hexVal (c : Char) : Option Nat :=
  if '0' ≤ c ∧ c ≤ '9' then some (c.toNat - '0'.toNat)
  else if 'a' ≤ c ∧ c ≤ 'f' then some (c.toNat - 'a'.toNat + 10)
  else if 'A' ≤ c ∧ c ≤ 'F' then some (c.toNat - 'A'.toNat + 10)
  else none

/-- The lower-case hexadecimal digit for a value below 16. -/
def hexDigitChar (n : Nat) : Char :=
  if n < 10 then Char.ofNat ('0'.toNat + n) else Char.ofNat ('a'.toNat + n - 10)

/-- The escaping `JSON.stringify` applies to one character of a string:
quote and backslash get a backslash escape, the named control characters get
their short escapes, other control characters become `\u00XX`, and everything
else is kept as-is. -/
def escChar (c : Char) : List Char :=
  if c = '"' then ['\\', '"']
  else if c = '\\' then ['\\', '\\']
  else if c = '\x08' then ['\\', 'b']
  else if c = '\x0c' then ['\\', 'f']
  else if c = '\n' then ['\\', 'n']
  else if c = '\r' then ['\\', 'r']
  else if c = '\t' then ['\\', 't']
  else if c.toNat < 32 then
    ['\\', 'u', '0', '0', hexDigitChar (c.toNat / 16), hexDigitChar (c.toNat % 16)]
  else [c]

/-- A string as serialized by `JSON.stringify`: quoted and escaped. -/
def quoteChars (s : String) : List Char :=
  '"' :: (s.data.flatMap escChar) ++ ['"']

/-- The comma-separated body of a serialized array of strings. -/
def strBody : List String → List Char
  | [] => []
  | [x] => quoteChars x
  | x :: xs => quoteChars x ++ ',' :: strBody xs

/-- `JSON.stringify` on an array of strings. -/
def jsonStringifyStrArr (xs : List String) : String :=
  String.mk ('[' :: strBody xs ++ [']'])

/-- JSON string-literal body parser: consumes characters up to the closing
quote, decoding escapes, and returns the decoded characters together with
the remaining input.  Raw control characters are rejected, as in JSON. -/
def parseJStringAux : List Char → Option (List Char × List Char)
  | [] => none
  | c :: rest =>
    if c = '"' then some ([], rest)
    else if c = '\\' then
      match rest with
      | [] => none
      | e :: rest2 =>
        if e = '"' then (parseJStringAux rest2).map (fun p => ('"' :: p.1, p.2))
        else if e = '\\' then (parseJStringAux rest2).map (fun p => ('\\' :: p.1, p.2))
        else if e = '/' then (parseJStringAux rest2).map (fun p => ('/' :: p.1, p.2))
        else if e = 'b' then (parseJStringAux rest2).map (fun p => ('\x08' :: p.1, p.2))
        else if e = 'f' then (parseJStringAux rest2).map (fun p => ('\x0c' :: p.1, p.2))
        else if e = 'n' then (parseJStringAux rest2).map (fun p => ('\n' :: p.1, p.2))
        else if e = 'r' then (parseJStringAux rest2).map (fun p => ('\r' :: p.1, p.2))
        else if e = 't' then (parseJStringAux rest2).map (fun p => ('\t' :: p.1, p.2))
        else if e = 'u' then
          match rest2 with
          | a :: b :: c2 :: d :: rest3 =>
            match hexVal a, hexVal b, hexVal c2, hexVal d with
            | some ha, some hb, some hc, some hd =>
              (parseJStringAux rest3).map (fun p =>
                (Char.ofNat (((ha * 16 + hb) * 16 + hc) * 16 + hd) :: p.1, p.2))
            | _, _, _, _ => none
          | _ => none
        else none
    else if c.toNat < 32 then none
    else (parseJStringAux rest).map (fun p => (c :: p.1, p.2))

/-- JSON number parser, restricted to the integral fragment (see the header
note: the dashboard's relation payloads contain no numeric leaves). -/
def parseNum (cs : List Char) : Option (Nat × List Char) :=
  let ds := cs.takeWhile Char.isDigit
  if ds = [] then none
  else some (ds.foldl (fun acc c => acc * 10 + (c.toNat - '0'.toNat)) 0,
             cs.dropWhile Char.isDigit)

/-- Consume an exact keyword continuation (the tails of `true` / `false` /
`null`). -/
def dropExact : List Char → List Char → Option (List Char)
  | [], cs => some cs
  | w :: ws, c :: cs => if c = w then dropExact ws cs else none
  | _ :: _, [] => none

mutual

/-- Fuel-indexed JSON value parser modelling `JSON.parse`.  The fuel only
bounds the nesting depth; `jsonParse` supplies more fuel than the input
length, so the fuel can never run out on a successful parse. -/
def parseVal : Nat → List Char → Option (JVal × List Char)
  | 0, _ => none
  | f + 1, cs =>
    match cs with
    | [] => none
    | c :: rest =>
      if c = '"' then
        (parseJStringAux rest).map (fun p => (JVal.str (String.mk p.1), p.2))
      else if c = '[' then
        (if (skipWs rest).head? = some ']' then
          some (JVal.arr [], (skipWs rest).tail)
        else
          (parseElems f (skipWs rest)).map (fun p => (JVal.arr p.1, p.2)))
      else if c = '\x7b' then
        (if (skipWs rest).head? = some '\x7d' then
          some (JVal.obj [], (skipWs rest).tail)
        else
          (parseMembers f (skipWs rest)).map (fun p => (JVal.obj p.1, p.2)))
      else if c = 't' then
        (dropExact ['r', 'u', 'e'] rest).map (fun r => (JVal.bool true, r))
      else if c = 'f' then
        (dropExact ['a', 'l', 's', 'e'] rest).map (fun r => (JVal.bool false, r))
      else if c = 'n' then
        (dropExact ['u', 'l', 'l'] rest).map (fun r => (JVal.null, r))
      else if c = '-' then
        (parseNum rest).map (fun p => (JVal.num (-(p.1 : Int)), p.2))
      else if c.isDigit then
        (parseNum cs).map (fun p => (JVal.num (p.1 : Int), p.2))
      else none

/-- Parser for the elements of a non-empty JSON array (after the opening
bracket and leading whitespace). -/
def parseElems : Nat → List Char → Option (List JVal × List Char)
  | 0, _ => none
  | f + 1, cs =>
    (parseVal f cs).bind (fun vr =>
      let r1 := skipWs vr.2
      if r1.head? = some ',' then
        (parseElems f (skipWs r1.tail)).map (fun p => (vr.1 :: p.1, p.2))
      else if r1.head? = some ']' then some ([vr.1], r1.tail)
      else none)

/-- Parser for the members of a non-empty JSON object (after the opening
brace and leading whitespace). -/
def parseMembers : Nat → List Char → Option (List (String × JVal) × List Char)
  | 0, _ => none
  | f + 1, cs =>
    match cs with
    | [] => none
    | c :: rest =>
      if c = '"' then
        (parseJStringAux rest).bind (fun kr =>
          let r1 := skipWs kr.2
          if r1.head? = some ':' then
            (parseVal f (skipWs r1.tail)).bind (fun vr =>
              let r2 := skipWs vr.2
              if r2.head? = some ',' then
                (parseMembers f (skipWs r2.tail)).map
                  (fun p => ((String.mk kr.1, vr.1) :: p.1, p.2))
              else if r2.head? = some '\x7d' then
                some ([(String.mk kr.1, vr.1)], r2.tail)
              else none)
          else none)
      else none

end

/-- The model of `JSON.parse`: parse one value surrounded by optional
whitespace; trailing garbage is rejected. -/
def jsonParse (s : String) : Option JVal :=
  let cs := skipWs s.data
  match parseVal (cs.length + 1) cs with
  | some (v, rest) => if skipWs rest = [] then some v else none
  | none => none

/-- JavaScript property access on a parsed object: with duplicate keys the
last occurrence wins, as in an object built by `JSON.parse`. -/
def objField (fs : List (String × JVal)) (name : String) : Option JVal :=
  ((fs.filter (fun kv => kv.1 = name)).getLast?).map (fun kv => kv.2)

/-- The nullish-coalescing chain `v.a ?? v.b ?? ... ` over a list of field
names: the first field that is present and not `null`. -/
def coalesceFields (fs : List (String × JVal)) : List String → Option JVal
  | [] => none
  | n :: rest =>
    match objField fs n with
    | some v => if v = .null then coalesceFields fs rest else some v
    | none => coalesceFields fs rest

/-- One element of a tuple claim, as stringified by `extractClaims`: strings
are kept, objects yield their `text`/`claim`/`content`/`value` field (with
the empty string as final default — arrays, being objects in JavaScript,
also fall in this branch and always yield the default), and remaining
primitives go through `String(p ?? '')`. -/
def tuplePart (p : JVal) : JVal :=
  match p with
  | .str s => .str s
  | .obj fs => (coalesceFields fs ["text", "claim", "content", "value"]).getD (.str (""))
  | .arr _ => .str ("")
  | .null => .str ("")
  | .num n => .str (jsToString (.num n))
  | .bool b => .str (jsToString (.bool b))

/-- The kept parts of a tuple claim: only strings with non-blank trim
survive the filter. -/
def tupleParts (tup : List JVal) : List String :=
  (tup.map tuplePart).filterMap (fun v =>
    match v with
    | .str s => if jsTrim s ≠ "" then some s else none
    | _ => none)

/-- The array case of `extractClaims`: push plain strings; join tuple parts
with an em-dash; push the stringified text field of objects; ignore other
shapes; finally drop blank entries. -/
def extractFromArr (items : List JVal) : List String :=
  (items.foldl
    (fun out item =>
      match item with
      | .str s => out ++ [s]
      | .arr tup =>
          let parts := tupleParts tup
          if parts = [] then out else out ++ [String.intercalate (" — ") parts]
      | .obj fs =>
          match coalesceFields fs ["text", "claim", "content", "value"] with
          | some cand => out ++ [jsToString cand]
          | none => out
      | _ => out)
    []).filter (fun s => jsTrim s ≠ "")

/-- Split a character list at newlines (JavaScript `split('\n')`,
keeping empty pieces). -/
def splitNlList : List Char → List (List Char)
  | [] => [[]]
  | c :: cs =>
    if c = '\n' then [] :: splitNlList cs
    else
      match splitNlList cs with
      | [] => [[c]]
      | l :: ls => (c :: l) :: ls

/-- The delimiter fallback of `extractClaims`: when the trimmed string
contains a newline, split into trimmed non-empty lines, else no claims. -/
def nlFallback (t : String) : List String :=
  if t.data.contains '\n' then
    ((splitNlList t.data).map (fun l => jsTrim (String.mk l))).filter
      (fun s => s ≠ "")
  else []

/-- Head test on the character list of a string. -/
def headIs (t : String) (c : Char) : Bool := t.data.head? == some c

/-- Last-character test on the character list of a string. -/
def lastIs (t : String) (c : Char) : Bool := t.data.getLast? == some c

/-- Fuel-indexed body of `extractClaims` (QuestionInspector.tsx).  The
source recursion always terminates: a recursive call happens only from an
object to its `claims` array or from a JSON-ish string to its parsed value
(an array or object), so the depth is at most three and the fuel of four
used by `extractClaims` can never run out. -/
def extractClaimsGo : Nat → Option JVal → List String
  | 0, _ => []
  | f + 1, raw =>
    if !(jOptTruthy raw) then []
    else
      match raw with
      | some (.obj fs) =>
        match objField fs ("claims") with
        | some (.arr l) => extractClaimsGo f (some (.arr l))
        | _ => []
      | some (.arr items) => extractFromArr items
      | some (.str s) =>
        let t := jsTrim s
        if (headIs t '[' && lastIs t ']') || (headIs t '\x7b' && lastIs t '\x7d') then
          match jsonParse t with
          | some parsed => extractClaimsGo f (some parsed)
          | none => nlFallback t
        else nlFallback t
      | _ => []

/-- `extractClaims` of QuestionInspector.tsx. -/
def extractClaims (raw : Option JVal) : List String := extractClaimsGo 4 raw

/-! ### Resolver lemmas -/

theorem jGet_eq_get? {xs : List JVal} {i : Int} (h0 : 0 ≤ i) :
    jGet xs i = xs.get? i.toNat := if_pos h0

theorem jGet_neg (xs : List JVal) {i : Int} (h : i < 0) : jGet xs i = none := by
  rw [jGet, if_neg (by omega)]

theorem jGet_oob (xs : List JVal) {i : Int} (h : (xs.length : Int) ≤ i) :
    jGet xs i = none := by
  have h0 : 0 ≤ i := le_trans (Int.natCast_nonneg _) h
  rw [jGet, if_pos h0, List.get?_eq_none]
  omega

theorem jGet_natCast (xs : List JVal) (n : Nat) : jGet xs (n : Int) = xs.get? n := by
  rw [jGet_eq_get? (Int.natCast_nonneg n), Int.toNat_natCast]

theorem jGet_nil (i : Int) : jGet [] i = none := by
  rw [jGet]
  split <;> simp

theorem relByRow_none_of_ne {m : List JVal} {r c cnt : Int}
    (h : (m.length : Int) ≠ cnt) : relByRow m r c (some cnt) = none := by
  simp [relByRow, h]

theorem relByRow_none_of_row_none {m : List JVal} {r c : Int} (cnt : Option Int)
    (h : jGet m r = none) : relByRow m r c cnt = none := by
  cases cnt <;> simp [relByRow, h]

theorem relByRow_some {m : List JVal} {r c cnt : Int} {row : List JVal}
    (hlen : (m.length : Int) = cnt) (hrow : jGet m r = some (.arr row)) :
    relByRow m r c (some cnt) = some (jGet row c) := by
  simp [relByRow, hlen, hrow]

theorem relByFirst_none_of_ne {m : List JVal} {r c fl cnt : Int}
    (h : fl ≠ cnt) : relByFirst m r c fl (some cnt) = none := by
  simp [relByFirst, h]

theorem relByFirst_none_of_row_none {m : List JVal} {r c fl : Int} (cnt : Option Int)
    (h : jGet m r = none) : relByFirst m r c fl cnt = none := by
  cases cnt <;> simp [relByFirst, h]

theorem relDirect_none_of_row_none {m : List JVal} {r c : Int}
    (h : jGet m r = none) : relDirect m r c = none := by
  simp [relDirect, h]

theorem relDirect_eval {m : List JVal} {r c : Int} {row : List JVal}
    (hrow : jGet m r = some (.arr row)) :
    relDirect m r c = if c < (row.length : Int) then some (jGet row c) else none := by
  simp [relDirect, hrow]

theorem matVal_get_row {m : List (List JVal)} {n : Nat} {row : List JVal}
    (h : m.get? n = some row) :
    jGet (m.map JVal.arr) (n : Int) = some (.arr row) := by
  rw [jGet_natCast, List.get?_eq_getElem?, List.getElem?_map,
    ← List.get?_eq_getElem?, h]
  rfl

theorem relAt_empty (i j : Int) (cc cl : Option Int) :
    relAt (.arr []) i j cc cl = none := by
  simp only [relAt]
  rw [relByRow_none_of_row_none _ (jGet_nil i),
      relByRow_none_of_row_none _ (jGet_nil j),
      relDirect_none_of_row_none (jGet_nil i),
      relDirect_none_of_row_none (jGet_nil j)]
  rfl

theorem relAt_wf_direct (m : List (List JVal)) (cc cl : Nat) (i j : Nat)
    (hm : m.length = cc) (hi : i < cc) :
    relAt (matVal m) (i : Int) (j : Int) (some (cc : Int)) (some (cl : Int)) =
      cellAt m i j := by
  obtain ⟨mi, hmi⟩ : ∃ r, m.get? i = some r := by
    cases hg : m.get? i with
    | none => rw [List.get?_eq_none] at hg; omega
    | some r => exact ⟨r, rfl⟩
  have hrow := matVal_get_row hmi
  have hlen : ((List.map JVal.arr m).length : Int) = (cc : Int) := by
    simp [hm]
  simp only [matVal, relAt]
  rw [relByRow_some hlen hrow]
  simp only [Option.some_orElse, Option.getD_some]
  rw [jGet_natCast, cellAt, hmi, Option.some_bind]

/-- C1 (amended): for a relation matrix `m` of shape `chunkCount × claimCount`
and its transpose `t`, resolving either orientation with both counts supplied
returns the cell `m[i][j]` at every valid coordinate — provided
`chunkCount ≠ claimCount`.  (When the two counts are equal the resolver reads
the transposed matrix in the rows-are-chunks orientation and returns the
transposed cell `m[j][i]` instead; see the counterexample.) -/
theorem relAt_transpose_tolerance
    (m t : List (List JVal)) (cc cl i j : Nat)
    (hm : m.length = cc) (hmr : ∀ r ∈ m, r.length = cl)
    (ht : t.length = cl) (htr : ∀ r ∈ t, r.length = cc)
    (hcell : ∀ a : Nat, a < cc → ∀ b : Nat, b < cl → cellAt t b a = cellAt m a b)
    (hne : cc ≠ cl) (hi : i < cc) (hj : j < cl) :
    relAt (matVal m) (i : Int) (j : Int) (some (cc : Int)) (some (cl : Int)) =
      cellAt m i j
    ∧ relAt (matVal t) (i : Int) (j : Int) (some (cc : Int)) (some (cl : Int)) =
      cellAt m i j := by
  refine ⟨relAt_wf_direct m cc cl i j hm hi, ?_⟩
  obtain ⟨tj, htj⟩ : ∃ r, t.get? j = some r := by
    cases hg : t.get? j with
    | none => rw [List.get?_eq_none] at hg; omega
    | some r => exact ⟨r, rfl⟩
  have hrow := matVal_get_row htj
  have hlen : ((List.map JVal.arr t).length : Int) = (cl : Int) := by
    simp [ht]
  have h1 : relByRow (List.map JVal.arr t) (i : Int) (j : Int) (some (cc : Int)) = none := by
    apply relByRow_none_of_ne
    rw [List.length_map, ht]
    exact_mod_cast Ne.symm hne
  simp only [matVal, relAt]
  rw [h1, relByRow_some hlen hrow]
  simp only [Option.none_orElse, Option.some_orElse, Option.getD_some]
  rw [jGet_natCast, ← hcell i hi j hj, cellAt, htj, Option.some_bind]

/-- C1 counterexample: with `chunkCount = claimCount = 2`, resolving the
transposed matrix at the valid coordinate `(0, 1)` yields the transposed cell
(`Neutral`) instead of `m[0][1]` (`Contradiction`): the claimed equality
fails in the square case. -/
theorem relAt_transpose_square_cex :
    (∀ a : Nat, a < 2 → ∀ b : Nat, b < 2 →
      cellAt [[JVal.str ("Entailment"), JVal.str ("Neutral")],
              [JVal.str ("Contradiction"), JVal.str ("Entailment")]] b a =
      cellAt [[JVal.str ("Entailment"), JVal.str ("Contradiction")],
              [JVal.str ("Neutral"), JVal.str ("Entailment")]] a b)
    ∧ relAt (matVal [[JVal.str ("Entailment"), JVal.str ("Neutral")],
                     [JVal.str ("Contradiction"), JVal.str ("Entailment")]])
        0 1 (some 2) (some 2) = some (JVal.str ("Neutral"))
    ∧ relAt (matVal [[JVal.str ("Entailment"), JVal.str ("Neutral")],
                     [JVal.str ("Contradiction"), JVal.str ("Entailment")]])
        0 1 (some 2) (some 2) ≠
      cellAt [[JVal.str ("Entailment"), JVal.str ("Contradiction")],
              [JVal.str ("Neutral"), JVal.str ("Entailment")]] 0 1 := by
  decide

theorem relAt_transpose_tolerance_witness :
    relAt (matVal [[JVal.str ("Entailment"), JVal.str ("Contradiction"), JVal.str ("Neutral")],
                   [JVal.str ("Neutral"), JVal.str ("Entailment"), JVal.str ("Contradiction")]])
        1 2 (some 2) (some 3) =
      cellAt [[JVal.str ("Entailment"), JVal.str ("Contradiction"), JVal.str ("Neutral")],
              [JVal.str ("Neutral"), JVal.str ("Entailment"), JVal.str ("Contradiction")]] 1 2
    ∧ relAt (matVal [[JVal.str ("Entailment"), JVal.str ("Neutral")],
                     [JVal.str ("Contradiction"), JVal.str ("Entailment")],
                     [JVal.str ("Neutral"), JVal.str ("Contradiction")]])
        1 2 (some 2) (some 3) =
      cellAt [[JVal.str ("Entailment"), JVal.str ("Contradiction"), JVal.str ("Neutral")],
              [JVal.str ("Neutral"), JVal.str ("Entailment"), JVal.str ("Contradiction")]] 1 2 :=
  relAt_transpose_tolerance
    [[JVal.str ("Entailment"), JVal.str ("Contradiction"), JVal.str ("Neutral")],
     [JVal.str ("Neutral"), JVal.str ("Entailment"), JVal.str ("Contradiction")]]
    [[JVal.str ("Entailment"), JVal.str ("Neutral")],
     [JVal.str ("Contradiction"), JVal.str ("Entailment")],
     [JVal.str ("Neutral"), JVal.str ("Contradiction")]]
    2 3 1 2 (by decide) (by decide) (by decide) (by decide) (by decide)
    (by decide) (by decide) (by decide)

/-- C2 (amended): the resolver is total (the embedding is a total function,
so no exception is possible) and returns `undefined` for a non-array matrix,
for the empty array, for an in-range `chunkIdx` with an out-of-range
`claimIdx`, and when both indices are out of range against a well-formed
matrix with correct counts.  (An out-of-range `chunkIdx` combined with an
in-range `claimIdx` can instead hit the positional fallback and return the
cell `m[claimIdx][chunkIdx]`; see the counterexample.) -/
theorem relAt_total_safety :
    (∀ (v : JVal), (∀ l, v ≠ .arr l) → ∀ (i j : Int) (cc cl : Option Int),
        relAt v i j cc cl = none)
    ∧ (∀ (i j : Int) (cc cl : Option Int), relAt (.arr []) i j cc cl = none)
    ∧ (∀ (m : List (List JVal)) (cc cl : Nat) (i j : Int),
        m.length = cc → (∀ r ∈ m, r.length = cl) →
        0 ≤ i → i < (cc : Int) → ¬(0 ≤ j ∧ j < (cl : Int)) →
        relAt (matVal m) i j (some (cc : Int)) (some (cl : Int)) = none)
    ∧ (∀ (m : List (List JVal)) (cc cl : Nat) (i j : Int),
        m.length = cc → (∀ r ∈ m, r.length = cl) →
        ¬(0 ≤ i ∧ i < (cc : Int)) → ¬(0 ≤ j ∧ j < (cl : Int)) →
        relAt (matVal m) i j (some (cc : Int)) (some (cl : Int)) = none) := by
  refine ⟨?_, fun i j cc cl => relAt_empty i j cc cl, ?_, ?_⟩
  · intro v hv i j cc cl
    cases v with
    | arr l => exact absurd rfl (hv l)
    | null => rfl
    | bool b => rfl
    | num n => rfl
    | str s => rfl
    | obj fs => rfl
  · -- in-range chunk index, out-of-range claim index: the first step fires
    -- on the row and the row lookup yields undefined
    intro m cc cl i j hm hmr h0i hic hj
    have hiN : i.toNat < m.length := by omega
    obtain ⟨mi, hmi⟩ : ∃ r, m.get? i.toNat = some r := by
      cases hg : m.get? i.toNat with
      | none => rw [List.get?_eq_none] at hg; omega
      | some r => exact ⟨r, rfl⟩
    have hrow : jGet (List.map JVal.arr m) i = some (.arr mi) := by
      rw [jGet_eq_get? h0i, List.get?_eq_getElem?, List.getElem?_map,
        ← List.get?_eq_getElem?, hmi]
      rfl
    have hlen : ((List.map JVal.arr m).length : Int) = (cc : Int) := by simp [hm]
    have hmil : mi.length = cl := hmr mi (List.get?_mem hmi)
    have hcell : jGet mi j = none := by
      rcases lt_or_le j 0 with h | h
      · exact jGet_neg _ h
      · exact jGet_oob _ (by omega)
    simp only [matVal, relAt]
    rw [relByRow_some hlen hrow, hcell]
    rfl
  · -- both indices out of range: every fallback step misses or lands on an
    -- undefined cell
    intro m cc cl i j hm hmr hi hj
    have hlen : ((List.map JVal.arr m).length : Int) = (cc : Int) := by simp [hm]
    have hgi : jGet (List.map JVal.arr m) i = none := by
      rcases lt_or_le i 0 with h | h
      · exact jGet_neg _ h
      · exact jGet_oob _ (by omega)
    have hgj : ¬(0 ≤ j ∧ j < (cc : Int)) → jGet (List.map JVal.arr m) j = none := by
      intro hjcc
      rcases lt_or_le j 0 with h | h
      · exact jGet_neg _ h
      · exact jGet_oob _ (by omega)
    have h1 : relByRow (List.map JVal.arr m) i j (some (cc : Int)) = none :=
      relByRow_none_of_row_none _ hgi
    have h2 : relByRow (List.map JVal.arr m) j i (some (cl : Int)) = none := by
      by_cases hcl : ((List.map JVal.arr m).length : Int) = (cl : Int)
      · exact relByRow_none_of_row_none _ (hgj (by omega))
      · exact relByRow_none_of_ne hcl
    have h4 : relDirect (List.map JVal.arr m) i j = none :=
      relDirect_none_of_row_none hgi
    cases m with
    | nil =>
      simpa [matVal] using relAt_empty i j (some (cc : Int)) (some (cl : Int))
    | cons r0 rs =>
      have hr0 : r0.length = cl := hmr r0 (List.mem_cons_self r0 rs)
      have h3a : relByFirst (List.map JVal.arr (r0 :: rs)) i j
          ((r0.length : Nat) : Int) (some (cl : Int)) = none :=
        relByFirst_none_of_row_none _ hgi
      have h3b : relByFirst (List.map JVal.arr (r0 :: rs)) j i
          ((r0.length : Nat) : Int) (some (cc : Int)) = none := by
        by_cases hfc : ((r0.length : Nat) : Int) = (cc : Int)
        · refine relByFirst_none_of_row_none _ (hgj ?_)
          omega
        · exact relByFirst_none_of_ne hfc
      have h5 : relDirect (List.map JVal.arr (r0 :: rs)) j i = none
          ∨ relDirect (List.map JVal.arr (r0 :: rs)) j i = some none := by
        by_cases hj0 : 0 ≤ j ∧ j < (cc : Int)
        · have hjN : j.toNat < (r0 :: rs).length := by omega
          obtain ⟨mj, hmj⟩ : ∃ r, (r0 :: rs).get? j.toNat = some r := by
            cases hg : (r0 :: rs).get? j.toNat with
            | none => rw [List.get?_eq_none] at hg; omega
            | some r => exact ⟨r, rfl⟩
          have hrowj : jGet (List.map JVal.arr (r0 :: rs)) j = some (.arr mj) := by
            rw [jGet_eq_get? hj0.1, List.get?_eq_getElem?, List.getElem?_map,
              ← List.get?_eq_getElem?, hmj]
            rfl
          have hmjl : mj.length = cl := hmr mj (List.get?_mem hmj)
          rw [relDirect_eval hrowj]
          by_cases hlt : i < ((mj.length : Nat) : Int)
          · have hineg : i < 0 := by omega
            rw [if_pos hlt, jGet_neg _ hineg]
            exact Or.inr rfl
          · rw [if_neg hlt]
            exact Or.inl rfl
        · exact Or.inl (relDirect_none_of_row_none (hgj hj0))
      simp only [matVal, relAt, List.map_cons, List.head?_cons] at h1 h2 h3a h3b h4 ⊢
      rw [h1, h2, h3a, h3b, h4]
      rcases h5 with h | h <;>
        simp only [List.map_cons] at h <;> rw [h] <;> rfl

/-- C2 counterexample: against the well-formed `2 × 3` matrix with correct
counts, the out-of-range `chunkIdx = 2` paired with the in-range
`claimIdx = 0` does not return `undefined`: the positional fallback answers
with the cell `m[0][2]`. -/
theorem relAt_oob_not_undefined_cex :
    relAt (matVal [[JVal.str ("Entailment"), JVal.str ("Contradiction"), JVal.str ("Neutral")],
                   [JVal.str ("Neutral"), JVal.str ("Entailment"), JVal.str ("Contradiction")]])
        2 0 (some 2) (some 3) = some (JVal.str ("Neutral"))
    ∧ relAt (matVal [[JVal.str ("Entailment"), JVal.str ("Contradiction"), JVal.str ("Neutral")],
                     [JVal.str ("Neutral"), JVal.str ("Entailment"), JVal.str ("Contradiction")]])
        2 0 (some 2) (some 3) ≠ none := by
  decide

theorem relAt_total_safety_witness :
    relAt (.str ("oops")) 0 0 none none = none
    ∧ relAt (.arr []) 3 (-1) (some 2) (some 5) = none
    ∧ relAt (matVal [[JVal.str ("Entailment"), JVal.str ("Contradiction"), JVal.str ("Neutral")],
                     [JVal.str ("Neutral"), JVal.str ("Entailment"), JVal.str ("Contradiction")]])
        1 7 (some 2) (some 3) = none
    ∧ relAt (matVal [[JVal.str ("Entailment"), JVal.str ("Contradiction"), JVal.str ("Neutral")],
                     [JVal.str ("Neutral"), JVal.str ("Entailment"), JVal.str ("Contradiction")]])
        (-4) 9 (some 2) (some 3) = none :=
  ⟨relAt_total_safety.1 (.str ("oops")) (fun l => by simp) 0 0 none none,
   relAt_total_safety.2.1 3 (-1) (some 2) (some 5),
   relAt_total_safety.2.2.1 _ 2 3 1 7 (by decide) (by decide) (by decide)
     (by decide) (by decide),
   relAt_total_safety.2.2.2 _ 2 3 (-4) 9 (by decide) (by decide) (by decide)
     (by decide)⟩

theorem pushByRel_lengths (t : ClaimSets3) (rel : Option JVal) (claim : String) :
    (pushByRel t rel claim).entailments.length =
      t.entailments.length +
        (if claim ≠ "" ∧ rel = some (.str ("Entailment")) then 1 else 0)
    ∧ (pushByRel t rel claim).contradictions.length =
      t.contradictions.length +
        (if claim ≠ "" ∧ rel = some (.str ("Contradiction")) then 1 else 0)
    ∧ (pushByRel t rel claim).neutrals.length =
      t.neutrals.length +
        (if claim ≠ "" ∧ rel = some (.str ("Neutral")) then 1 else 0) := by
  by_cases hc : claim = ""
  · simp [pushByRel, hc]
  · rcases rel with _ | v
    · simp [pushByRel, jOptTruthy, hc]
    · cases v with
      | str s =>
        by_cases hs : s = ""
        · subst hs; simp [pushByRel, jOptTruthy, jTruthy, hc]
        · by_cases h1 : s = "Entailment"
          · subst h1; simp [pushByRel, jOptTruthy, jTruthy, hc]
          · by_cases h2 : s = "Contradiction"
            · subst h2; simp [pushByRel, jOptTruthy, jTruthy, hc]
            · by_cases h3 : s = "Neutral"
              · subst h3; simp [pushByRel, jOptTruthy, jTruthy, hc]
              · simp only [pushByRel, jOptTruthy, jTruthy, hc]
                simp [hs, h1, h2, h3]
      | null => simp [pushByRel, jOptTruthy, jTruthy, hc]
      | bool b => cases b <;> simp [pushByRel, jOptTruthy, jTruthy, hc]
      | num n =>
        by_cases hn : n = 0 <;> simp [pushByRel, jOptTruthy, jTruthy, hc, hn]
      | arr l => simp [pushByRel, jOptTruthy, jTruthy, hc]
      | obj fs => simp [pushByRel, jOptTruthy, jTruthy, hc]

theorem buildSets_lengths (claims : List String) (mat : JVal) (ci cc : Nat) :
    (buildSets claims mat ci cc).entailments.length =
      (List.range claims.length).countP (fun i =>
        decide (claims.getD i ("") ≠ "" ∧
          relAt mat (ci : Int) (i : Int) (some (cc : Int)) (some (claims.length : Int)) =
            some (.str ("Entailment"))))
    ∧ (buildSets claims mat ci cc).contradictions.length =
      (List.range claims.length).countP (fun i =>
        decide (claims.getD i ("") ≠ "" ∧
          relAt mat (ci : Int) (i : Int) (some (cc : Int)) (some (claims.length : Int)) =
            some (.str ("Contradiction"))))
    ∧ (buildSets claims mat ci cc).neutrals.length =
      (List.range claims.length).countP (fun i =>
        decide (claims.getD i ("") ≠ "" ∧
          relAt mat (ci : Int) (i : Int) (some (cc : Int)) (some (claims.length : Int)) =
            some (.str ("Neutral")))) := by
  rw [buildSets]
  suffices h : ∀ (l : List Nat) (acc : ClaimSets3),
      ((l.foldl
        (fun acc (i : Nat) =>
          pushByRel acc
            (relAt mat (ci : Int) (i : Int)
              (some (cc : Int)) (some (claims.length : Int)))
            (claims.getD i (""))) acc).entailments.length =
        acc.entailments.length + l.countP (fun i =>
          decide (claims.getD i ("") ≠ "" ∧
            relAt mat (ci : Int) (i : Int) (some (cc : Int)) (some (claims.length : Int)) =
              some (.str ("Entailment")))))
      ∧ ((l.foldl
        (fun acc (i : Nat) =>
          pushByRel acc
            (relAt mat (ci : Int) (i : Int)
              (some (cc : Int)) (some (claims.length : Int)))
            (claims.getD i (""))) acc).contradictions.length =
        acc.contradictions.length + l.countP (fun i =>
          decide (claims.getD i ("") ≠ "" ∧
            relAt mat (ci : Int) (i : Int) (some (cc : Int)) (some (claims.length : Int)) =
              some (.str ("Contradiction")))))
      ∧ ((l.foldl
        (fun acc (i : Nat) =>
          pushByRel acc
            (relAt mat (ci : Int) (i : Int)
              (some (cc : Int)) (some (claims.length : Int)))
            (claims.getD i (""))) acc).neutrals.length =
        acc.neutrals.length + l.countP (fun i =>
          decide (claims.getD i ("") ≠ "" ∧
            relAt mat (ci : Int) (i : Int) (some (cc : Int)) (some (claims.length : Int)) =
              some (.str ("Neutral"))))) by
    have := h (List.range claims.length) ⟨[], [], []⟩
    simpa using this
  intro l
  induction l with
  | nil => intro acc; simp
  | cons x xs ih =>
    intro acc
    simp only [List.foldl_cons, List.countP_cons]
    obtain ⟨he, hcon, hn⟩ := ih (pushByRel acc
      (relAt mat (ci : Int) (x : Int) (some (cc : Int)) (some (claims.length : Int)))
      (claims.getD x ("")))
    obtain ⟨pe, pc, pn⟩ := pushByRel_lengths acc
      (relAt mat (ci : Int) (x : Int) (some (cc : Int)) (some (claims.length : Int)))
      (claims.getD x (""))
    refine ⟨?_, ?_, ?_⟩
    · rw [he, pe]
      by_cases hp : claims.getD x ("") ≠ "" ∧
          relAt mat (ci : Int) (x : Int) (some (cc : Int)) (some (claims.length : Int)) =
            some (.str ("Entailment")) <;>
        simp [hp] <;> omega
    · rw [hcon, pc]
      by_cases hp : claims.getD x ("") ≠ "" ∧
          relAt mat (ci : Int) (x : Int) (some (cc : Int)) (some (claims.length : Int)) =
            some (.str ("Contradiction")) <;>
        simp [hp] <;> omega
    · rw [hn, pn]
      by_cases hp : claims.getD x ("") ≠ "" ∧
          relAt mat (ci : Int) (x : Int) (some (cc : Int)) (some (claims.length : Int)) =
            some (.str ("Neutral")) <;>
        simp [hp] <;> omega

/-- C3 (amended): for every chunk, each list produced by
`getClaimSetsForChunk` counts exactly the claims whose title is non-empty
and whose resolved relation is the exact matching string — in particular the
neutral count covers only relations equal to `Neutral`.  Unresolved
(`undefined`) relations are skipped by `pushByRel` and contribute to none of
the three sets, so they are not counted as `Neutral`; see the
counterexample. -/
theorem getClaimSetsForChunk_counts
    (gtClaims respClaims : List String) (r2a r2r : JVal) (cc ci : Nat) :
    ((getClaimSetsForChunk gtClaims respClaims r2a r2r cc ci).gt.neutrals.length =
      (List.range gtClaims.length).countP (fun i =>
        decide (gtClaims.getD i ("") ≠ "" ∧
          relAt (.arr (jAsArr r2a)) (ci : Int) (i : Int)
            (some (cc : Int)) (some (gtClaims.length : Int)) =
              some (.str ("Neutral")))))
    ∧ ((getClaimSetsForChunk gtClaims respClaims r2a r2r cc ci).gt.entailments.length =
      (List.range gtClaims.length).countP (fun i =>
        decide (gtClaims.getD i ("") ≠ "" ∧
          relAt (.arr (jAsArr r2a)) (ci : Int) (i : Int)
            (some (cc : Int)) (some (gtClaims.length : Int)) =
              some (.str ("Entailment")))))
    ∧ ((getClaimSetsForChunk gtClaims respClaims r2a r2r cc ci).gt.contradictions.length =
      (List.range gtClaims.length).countP (fun i =>
        decide (gtClaims.getD i ("") ≠ "" ∧
          relAt (.arr (jAsArr r2a)) (ci : Int) (i : Int)
            (some (cc : Int)) (some (gtClaims.length : Int)) =
              some (.str ("Contradiction")))))
    ∧ ((getClaimSetsForChunk gtClaims respClaims r2a r2r cc ci).response.neutrals.length =
      (List.range respClaims.length).countP (fun i =>
        decide (respClaims.getD i ("") ≠ "" ∧
          relAt (.arr (jAsArr r2r)) (ci : Int) (i : Int)
            (some (cc : Int)) (some (respClaims.length : Int)) =
              some (.str ("Neutral"))))) :=
  ⟨(buildSets_lengths gtClaims (.arr (jAsArr r2a)) ci cc).2.2,
   (buildSets_lengths gtClaims (.arr (jAsArr r2a)) ci cc).1,
   (buildSets_lengths gtClaims (.arr (jAsArr r2a)) ci cc).2.1,
   (buildSets_lengths respClaims (.arr (jAsArr r2r)) ci cc).2.2⟩

/-- C3 counterexample: with one ground-truth claim and an empty relation
matrix the resolved relation is unresolved (`undefined`), so the claim's
predicted neutral count (claims resolving to `Neutral` or unresolved) is 1,
but `getClaimSetsForChunk` records no neutral at all. -/
theorem unknown_rel_not_counted_neutral_cex :
    relAt (.arr (jAsArr (.arr []))) 0 0 (some 1) (some 1) = none
    ∧ (List.range 1).countP (fun i =>
        decide (relAt (.arr (jAsArr (.arr []))) 0 (i : Int) (some 1) (some 1) =
            some (.str ("Neutral"))
          ∨ relAt (.arr (jAsArr (.arr []))) 0 (i : Int) (some 1) (some 1) = none)) = 1
    ∧ (getClaimSetsForChunk ["a"] [] (.arr []) (.arr []) 1 0).gt.neutrals.length = 0
    ∧ (getClaimSetsForChunk ["a"] [] (.arr []) (.arr []) 1 0).gt.neutrals.length ≠
      (List.range 1).countP (fun i =>
        decide (relAt (.arr (jAsArr (.arr []))) 0 (i : Int) (some 1) (some 1) =
            some (.str ("Neutral"))
          ∨ relAt (.arr (jAsArr (.arr []))) 0 (i : Int) (some 1) (some 1) = none)) := by
  decide

/-- C4 (amended): the disposition of a ground-truth or response claim is
computed from the FIRST cell of that claim's relation list only (later cells
are ignored): `entailed` exactly when the first cell's lower-cased string
form is `entailment`, `contradiction` exactly when it is `contradiction`,
and `neutral` otherwise.  The claim's any-cell collapse does not hold; see
the counterexample. -/
theorem mapDirectStatuses_first_cell (relations : JVal) (n i : Nat) (hi : i < n) :
    (mapDirectStatuses relations n).length = n
    ∧ ((mapDirectStatuses relations n).getD i .neutral = .entailed ↔
        jsLower (jsToString (jsCoalesceEmpty (firstDirectCell relations i))) =
          "entailment")
    ∧ ((mapDirectStatuses relations n).getD i .neutral = .contradiction ↔
        jsLower (jsToString (jsCoalesceEmpty (firstDirectCell relations i))) =
          "contradiction") := by
  have hget : (mapDirectStatuses relations n).getD i .neutral =
      mapRelToStatus (firstDirectCell relations i) := by
    rw [mapDirectStatuses, List.getD_eq_getD_get?, List.get?_eq_getElem?,
      List.getElem?_map, List.getElem?_range hi]
    rfl
  refine ⟨by simp [mapDirectStatuses], ?_, ?_⟩ <;>
    rw [hget, mapRelToStatus] <;> split_ifs with h1 h2 <;> simp_all

/-- C4 counterexample: a relation list whose first cell is `Neutral` and
whose second cell is `Entailment` yields disposition `neutral`, although the
claim's any-cell rule demands `entailed`. -/
theorem mapDirectStatuses_any_cell_cex :
    mapDirectStatuses (.arr [.arr [.str ("Neutral"), .str ("Entailment")]]) 1 =
      [.neutral]
    ∧ JVal.str ("Entailment") ∈ [JVal.str ("Neutral"), JVal.str ("Entailment")] := by
  decide

theorem mapDirectStatuses_first_cell_witness :
    (mapDirectStatuses (.arr [.str ("ENTAILMENT")]) 1).getD 0 .neutral = .entailed :=
  ((mapDirectStatuses_first_cell (.arr [.str ("ENTAILMENT")]) 1 0
    (by decide)).2.1).mpr (by decide)

/-- C5 (amended): `isIrrelevantFromCounts` is true iff the entailment and
contradiction counts clamp to zero and the neutral count clamps positive;
`isIrrelevantFromSets` equals `isIrrelevantFromCounts` on the three list
lengths; and `isIrrelevantFromSets` implies the `irrelevant` chunk badge —
but the badge itself holds exactly when the entailment and contradiction
counts are zero, regardless of the neutral count, so the badge and the
predicate disagree on a chunk with no classified relation at all (see the
counterexample). -/
theorem irrelevant_predicate_agreement :
    (∀ e n c : Option Int, isIrrelevantFromCounts e n c = true ↔
      max 0 (e.getD 0) = 0 ∧ max 0 (c.getD 0) = 0 ∧ 0 < max 0 (n.getD 0))
    ∧ (∀ sets : ClaimSets, isIrrelevantFromSets sets =
        isIrrelevantFromCounts (some (sets.gt.entailments.length : Int))
          (some (sets.gt.neutrals.length : Int))
          (some (sets.gt.contradictions.length : Int)))
    ∧ (∀ sets : ClaimSets, isIrrelevantFromSets sets = true →
        chunkStatusForSets sets = .irrelevant)
    ∧ (∀ sets : ClaimSets, chunkStatusForSets sets = .irrelevant ↔
        sets.gt.entailments.length = 0 ∧ sets.gt.contradictions.length = 0) := by
  refine ⟨?_, ?_, ?_, ?_⟩
  · intro e n c
    simp [isIrrelevantFromCounts, and_assoc]
  · intro sets
    rw [Bool.eq_iff_iff]
    simp only [isIrrelevantFromSets, isIrrelevantFromCounts, Option.getD_some,
      Bool.and_eq_true, beq_iff_eq, decide_eq_true_eq]
    omega
  · intro sets h
    simp only [isIrrelevantFromSets, Bool.and_eq_true, beq_iff_eq,
      decide_eq_true_eq] at h
    obtain ⟨⟨h1, h2⟩, h3⟩ := h
    simp only [chunkStatusForSets]
    rw [if_neg (by omega), if_neg (by omega)]
  · intro sets
    simp only [chunkStatusForSets]
    constructor
    · intro h
      split_ifs at h with h1 h2
      exact ⟨by omega, by omega⟩
    · rintro ⟨he, hc⟩
      rw [if_neg (by omega), if_neg (by omega)]

/-- C5 counterexample: a chunk whose claim sets are all empty (e.g. every
relation unresolved) gets the `irrelevant` badge from `chunkStatusForSets`,
but `isIrrelevantFromSets` is false on it, so the badge is not equivalent to
the predicate. -/
theorem irrelevant_badge_mismatch_cex :
    chunkStatusForSets ⟨⟨[], [], []⟩, ⟨[], [], []⟩⟩ = .irrelevant
    ∧ isIrrelevantFromSets ⟨⟨[], [], []⟩, ⟨[], [], []⟩⟩ = false := by
  decide

theorem irrelevant_predicate_agreement_witness :
    (isIrrelevantFromCounts (some (-2)) (some 3) none = true ↔
      max 0 ((some (-2) : Option Int).getD 0) = 0
      ∧ max 0 ((none : Option Int).getD 0) = 0
      ∧ 0 < max 0 ((some 3 : Option Int).getD 0))
    ∧ chunkStatusForSets ⟨⟨[], [], ["n"]⟩, ⟨[], [], []⟩⟩ = .irrelevant :=
  ⟨irrelevant_predicate_agreement.1 (some (-2)) (some 3) none,
   irrelevant_predicate_agreement.2.2.1 ⟨⟨[], [], ["n"]⟩, ⟨[], [], []⟩⟩ (by decide)⟩

/-- C6: `chunkStatusForSets` classifies `harming` as soon as the
ground-truth contradiction count is positive (entailments notwithstanding),
else `relevant` when the ground-truth entailment count is positive, else
`irrelevant`; in particular a chunk with both an entailment and a
contradiction is `harming`. -/
theorem chunkStatusForSets_precedence (sets : ClaimSets) :
    (0 < sets.gt.contradictions.length → chunkStatusForSets sets = .harming)
    ∧ (sets.gt.contradictions.length = 0 → 0 < sets.gt.entailments.length →
        chunkStatusForSets sets = .relevant)
    ∧ (sets.gt.contradictions.length = 0 → sets.gt.entailments.length = 0 →
        chunkStatusForSets sets = .irrelevant) := by
  refine ⟨?_, ?_, ?_⟩
  · intro h
    simp only [chunkStatusForSets]
    rw [if_pos (by omega)]
  · intro h1 h2
    simp only [chunkStatusForSets]
    rw [if_neg (by omega), if_pos (by omega)]
  · intro h1 h2
    simp only [chunkStatusForSets]
    rw [if_neg (by omega), if_neg (by omega)]

theorem chunkStatusForSets_precedence_witness :
    chunkStatusForSets ⟨⟨["e"], ["c"], []⟩, ⟨[], [], []⟩⟩ = .harming :=
  (chunkStatusForSets_precedence ⟨⟨["e"], ["c"], []⟩, ⟨[], [], []⟩⟩).1 (by decide)

theorem chunkSummary_usage_counts
    (gtClaims respClaims : List String) (r2a r2r : JVal) (nc : Nat) :
    (chunkSummary gtClaims respClaims r2a r2r nc).unused =
      (List.range nc).countP (fun idx =>
        decide ((getClaimSetsForChunk gtClaims respClaims r2a r2r nc
          idx).response.entailments.length = 0))
    ∧ (chunkSummary gtClaims respClaims r2a r2r nc).grounded =
      (List.range nc).countP (fun idx =>
        decide (0 < (getClaimSetsForChunk gtClaims respClaims r2a r2r nc
          idx).response.entailments.length))
    ∧ (chunkSummary gtClaims respClaims r2a r2r nc).respContr =
      (List.range nc).countP (fun idx =>
        decide (0 < (getClaimSetsForChunk gtClaims respClaims r2a r2r nc
          idx).response.contradictions.length)) := by
  rw [chunkSummary]
  suffices h : ∀ (l : List Nat) (acc : ChunkSummary),
      ((l.foldl
        (fun acc idx =>
          let sets := getClaimSetsForChunk gtClaims respClaims r2a r2r nc idx
          { rel := acc.rel + (if 0 < sets.gt.entailments.length then 1 else 0)
            irr := acc.irr + (if isIrrelevantFromSets sets then 1 else 0)
            harm := acc.harm + (if 0 < sets.gt.contradictions.length then 1 else 0)
            grounded := acc.grounded +
              (if 0 < sets.response.entailments.length then 1 else 0)
            unused := acc.unused +
              (if sets.response.entailments.length = 0 then 1 else 0)
            respContr := acc.respContr +
              (if 0 < sets.response.contradictions.length then 1 else 0) })
        acc).unused =
        acc.unused + l.countP (fun idx =>
          decide ((getClaimSetsForChunk gtClaims respClaims r2a r2r nc
            idx).response.entailments.length = 0)))
      ∧ ((l.foldl
        (fun acc idx =>
          let sets := getClaimSetsForChunk gtClaims respClaims r2a r2r nc idx
          { rel := acc.rel + (if 0 < sets.gt.entailments.length then 1 else 0)
            irr := acc.irr + (if isIrrelevantFromSets sets then 1 else 0)
            harm := acc.harm + (if 0 < sets.gt.contradictions.length then 1 else 0)
            grounded := acc.grounded +
              (if 0 < sets.response.entailments.length then 1 else 0)
            unused := acc.unused +
              (if sets.response.entailments.length = 0 then 1 else 0)
            respContr := acc.respContr +
              (if 0 < sets.response.contradictions.length then 1 else 0) })
        acc).grounded =
        acc.grounded + l.countP (fun idx =>
          decide (0 < (getClaimSetsForChunk gtClaims respClaims r2a r2r nc
            idx).response.entailments.length)))
      ∧ ((l.foldl
        (fun acc idx =>
          let sets := getClaimSetsForChunk gtClaims respClaims r2a r2r nc idx
          { rel := acc.rel + (if 0 < sets.gt.entailments.length then 1 else 0)
            irr := acc.irr + (if isIrrelevantFromSets sets then 1 else 0)
            harm := acc.harm + (if 0 < sets.gt.contradictions.length then 1 else 0)
            grounded := acc.grounded +
              (if 0 < sets.response.entailments.length then 1 else 0)
            unused := acc.unused +
              (if sets.response.entailments.length = 0 then 1 else 0)
            respContr := acc.respContr +
              (if 0 < sets.response.contradictions.length then 1 else 0) })
        acc).respContr =
        acc.respContr + l.countP (fun idx =>
          decide (0 < (getClaimSetsForChunk gtClaims respClaims r2a r2r nc
            idx).response.contradictions.length))) by
    have := h (List.range nc) ⟨0, 0, 0, 0, 0, 0⟩
    simpa using this
  intro l
  induction l with
  | nil => intro acc; simp
  | cons x xs ih =>
    intro acc
    simp only [List.foldl_cons, List.countP_cons]
    refine ⟨?_, ?_, ?_⟩
    · rw [(ih _).1]
      by_cases hp : (getClaimSetsForChunk gtClaims respClaims r2a r2r nc
          x).response.entailments.length = 0 <;>
        simp [hp] <;> omega
    · rw [(ih _).2.1]
      by_cases hp : 0 < (getClaimSetsForChunk gtClaims respClaims r2a r2r nc
          x).response.entailments.length <;>
        simp [hp] <;> omega
    · rw [(ih _).2.2]
      by_cases hp : 0 < (getClaimSetsForChunk gtClaims respClaims r2a r2r nc
          x).response.contradictions.length <;>
        simp [hp] <;> omega

/-- C9: in the per-chunk filter flags, `unused` is exactly `response
entailment count = 0` independently of contradictions, so a chunk with at
least one response contradiction and no response entailment is flagged both
`unused` and `contradicting`; likewise the summary counters count such a
chunk under both `Unused` and `Conflicting`, so Used/Unused/Conflicting do
not partition the chunks (witnessed concretely: the three counters sum to 2
over a single chunk). -/
theorem unused_flag_independent_of_contradictions :
    (∀ sets : ClaimSets,
      (chunkFlags sets).unused = (sets.response.entailments.length == 0))
    ∧ (∀ sets : ClaimSets,
        0 < sets.response.contradictions.length →
        sets.response.entailments.length = 0 →
        (chunkFlags sets).unused = true ∧ (chunkFlags sets).contradicting = true)
    ∧ ((chunkSummary [] ["x"] (.arr []) (.arr [.arr [.str ("Contradiction")]])
          1).unused = 1
      ∧ (chunkSummary [] ["x"] (.arr []) (.arr [.arr [.str ("Contradiction")]])
          1).grounded = 0
      ∧ (chunkSummary [] ["x"] (.arr []) (.arr [.arr [.str ("Contradiction")]])
          1).respContr = 1) := by
  refine ⟨fun sets => rfl, ?_, by decide⟩
  intro sets hc he
  simp [chunkFlags, he, hc]

theorem unused_flag_independent_of_contradictions_witness :
    (chunkFlags ⟨⟨[], [], []⟩, ⟨[], ["x"], []⟩⟩).unused = true
    ∧ (chunkFlags ⟨⟨[], [], []⟩, ⟨[], ["x"], []⟩⟩).contradicting = true :=
  unused_flag_independent_of_contradictions.2.1 ⟨⟨[], [], []⟩, ⟨[], ["x"], []⟩⟩
    (by decide) (by decide)

/-- C10: `mapRelToStatus` is total and case-insensitive — an input whose
lower-cased string form is `entailment` maps to `entailed`, one whose
lower-cased form is `contradiction` maps to `contradiction`, and every
other input (including `undefined` and `null`) maps to `neutral`; the
`supportedByChunk` scan likewise accepts `Entailment` in any casing at any
chunk position. -/
theorem mapRelToStatus_total_case_insensitive :
    (∀ rel : Option JVal,
      (jsLower (jsToString (jsCoalesceEmpty rel)) = "entailment" →
        mapRelToStatus rel = .entailed)
      ∧ (jsLower (jsToString (jsCoalesceEmpty rel)) = "contradiction" →
        mapRelToStatus rel = .contradiction)
      ∧ (jsLower (jsToString (jsCoalesceEmpty rel)) ≠ "entailment" →
         jsLower (jsToString (jsCoalesceEmpty rel)) ≠ "contradiction" →
         mapRelToStatus rel = .neutral))
    ∧ mapRelToStatus none = .neutral
    ∧ mapRelToStatus (some .null) = .neutral
    ∧ (∀ (r2r : JVal) (cc cl i : Nat),
        supportedByChunk r2r cc cl i = true ↔
          ∃ j, j < cc ∧
            jsLower (jsToString (jsOrEmpty
              (relAt (.arr (jAsArr r2r)) (j : Int) (i : Int)
                (some (cc : Int)) (some (cl : Int))))) = "entailment") := by
  refine ⟨?_, by decide, by decide, ?_⟩
  · intro rel
    refine ⟨?_, ?_, ?_⟩
    · intro h
      rw [mapRelToStatus]
      rw [if_pos h]
    · intro h
      rw [mapRelToStatus]
      rw [if_neg (by rw [h]; decide), if_pos h]
    · intro h1 h2
      rw [mapRelToStatus]
      rw [if_neg h1, if_neg h2]
  · intro r2r cc cl i
    simp [supportedByChunk, List.any_eq_true, List.mem_range]

theorem mapRelToStatus_total_case_insensitive_witness :
    mapRelToStatus (some (.str ("eNtAiLmEnT"))) = .entailed
    ∧ supportedByChunk (.arr [.arr [.str ("ENTAILMENT")]]) 1 1 0 = true :=
  ⟨(mapRelToStatus_total_case_insensitive.1 (some (.str ("eNtAiLmEnT")))).1
      (by decide),
   (mapRelToStatus_total_case_insensitive.2.2.2 (.arr [.arr [.str ("ENTAILMENT")]])
      1 1 0).mpr ⟨0, by decide, by decide⟩⟩

theorem mem_idxWhereFrom (f : Edge → Bool) :
    ∀ (l : List Edge) (n x : Nat),
      x ∈ idxWhereFrom n f l ↔
        ∃ k p, l.get? k = some p ∧ f p = true ∧ x = n + k := by
  intro l
  induction l with
  | nil => intro n x; simp [idxWhereFrom]
  | cons p ps ih =>
    intro n x
    rw [idxWhereFrom]
    constructor
    · intro hx
      split_ifs at hx with hf
      · rcases List.mem_cons.mp hx with rfl | hx'
        · exact ⟨0, p, rfl, hf, by omega⟩
        · obtain ⟨k, q, hk, hq, hxk⟩ := (ih (n + 1) x).mp hx'
          exact ⟨k + 1, q, by simpa using hk, hq, by omega⟩
      · obtain ⟨k, q, hk, hq, hxk⟩ := (ih (n + 1) x).mp hx
        exact ⟨k + 1, q, by simpa using hk, hq, by omega⟩
    · rintro ⟨k, q, hk, hq, rfl⟩
      cases k with
      | zero =>
        simp only [List.get?_cons_zero, Option.some_inj] at hk
        subst hk
        rw [if_pos hq]
        simp
      | succ k =>
        simp only [List.get?_cons_succ] at hk
        have hmem := (ih (n + 1) (n + (k + 1))).mpr ⟨k, q, hk, hq, by omega⟩
        split_ifs with hf
        · exact List.mem_cons_of_mem _ hmem
        · exact hmem

theorem mem_idxWhere (paths : List Edge) (f : Edge → Bool) (x : Nat) :
    x ∈ idxWhere paths f ↔ ∃ p, paths.get? x = some p ∧ f p = true := by
  rw [idxWhere, mem_idxWhereFrom]
  constructor
  · rintro ⟨k, p, hk, hp, rfl⟩
    exact ⟨p, by simpa using hk, hp⟩
  · rintro ⟨p, hp, hf⟩
    exact ⟨x, p, hp, hf, by omega⟩

theorem mem_dedupFirstAux :
    ∀ (l seen : List Nat) (x : Nat),
      x ∈ dedupFirstAux seen l ↔ x ∈ l ∧ x ∉ seen := by
  intro l
  induction l with
  | nil => intro seen x; simp [dedupFirstAux]
  | cons y ys ih =>
    intro seen x
    rw [dedupFirstAux]
    split_ifs with hy
    · rw [ih]
      constructor
      · rintro ⟨hmem, hns⟩
        exact ⟨List.mem_cons_of_mem _ hmem, hns⟩
      · rintro ⟨hmem, hns⟩
        rcases List.mem_cons.mp hmem with rfl | h
        · exact absurd hy hns
        · exact ⟨h, hns⟩
    · constructor
      · intro hx
        rcases List.mem_cons.mp hx with rfl | hx'
        · exact ⟨List.mem_cons_self _ _, hy⟩
        · obtain ⟨hmem, hns⟩ := (ih (y :: seen) x).mp hx'
          refine ⟨List.mem_cons_of_mem _ hmem, ?_⟩
          intro hcon
          exact hns (List.mem_cons_of_mem _ hcon)
      · rintro ⟨hmem, hns⟩
        rcases List.mem_cons.mp hmem with rfl | h
        · exact List.mem_cons_self _ _
        · by_cases hxy : x = y
          · subst hxy; exact List.mem_cons_self _ _
          · refine List.mem_cons_of_mem _ ((ih (y :: seen) x).mpr ⟨h, ?_⟩)
            intro hcon
            rcases List.mem_cons.mp hcon with h' | h'
            · exact hxy h'
            · exact hns h'

theorem mem_dedupFirst (l : List Nat) (x : Nat) :
    x ∈ dedupFirst l ↔ x ∈ l := by
  rw [dedupFirst, mem_dedupFirstAux]
  simp

theorem natContains_iff (l : List Nat) (x : Nat) : l.contains x = true ↔ x ∈ l := by
  simp [List.contains]

theorem mem_hover_chunkIdxs (paths : List Edge) (dir : List Nat) (c : Nat)
    (g : Edge → GNode) :
    (c ∈ dir.filterMap (fun i =>
      (paths.get? i).bind (fun p =>
        if (g p).col == .chunk then some (g p).index else none))) ↔
    ∃ k, k ∈ dir ∧ ∃ q, paths.get? k = some q ∧ (g q).col = .chunk ∧
      (g q).index = c := by
  rw [List.mem_filterMap]
  constructor
  · rintro ⟨k, hk, hg⟩
    cases hq : paths.get? k with
    | none => rw [hq] at hg; simp at hg
    | some q =>
      rw [hq, Option.some_bind] at hg
      split_ifs at hg with hcol
      simp only [Option.some_inj] at hg
      exact ⟨k, hk, q, hq, by simpa using hcol, hg⟩
  · rintro ⟨k, hk, q, hq, hcol, hc⟩
    refine ⟨k, hk, ?_⟩
    rw [hq, Option.some_bind, if_pos (by simpa using hcol)]
    exact congrArg some hc

/-- C7 (amended): hovering a ground-truth claim selects the edges whose
source is that claim plus every edge whose source is a chunk targeted by one
of those direct edges; hovering a chunk selects exactly the edges touching
that chunk (one hop only); hovering a response claim selects the edges whose
target is that claim plus every edge whose target is a chunk that is the
source of one of those direct edges.  This is narrower than the claimed
two-hop closure: sibling claim edges sharing a chunk with a direct edge are
not selected (see the counterexample). -/
theorem hover_selection_characterization (paths : List Edge) :
    (∀ gi i : Nat, i ∈ hoverGTSel paths gi ↔ ∃ p, paths.get? i = some p ∧
      ((p.src.col = .gt ∧ p.src.index = gi)
        ∨ (p.src.col = .chunk ∧ ∃ k q, paths.get? k = some q ∧
            q.src.col = .gt ∧ q.src.index = gi ∧ q.dst.col = .chunk ∧
            q.dst.index = p.src.index)))
    ∧ (∀ ci i : Nat, i ∈ hoverChunkSel paths ci ↔ ∃ p, paths.get? i = some p ∧
        ((p.src.col = .chunk ∧ p.src.index = ci)
          ∨ (p.dst.col = .chunk ∧ p.dst.index = ci)))
    ∧ (∀ ri i : Nat, i ∈ hoverRespSel paths ri ↔ ∃ p, paths.get? i = some p ∧
      ((p.dst.col = .resp ∧ p.dst.index = ri)
        ∨ (p.dst.col = .chunk ∧ ∃ k q, paths.get? k = some q ∧
            q.dst.col = .resp ∧ q.dst.index = ri ∧ q.src.col = .chunk ∧
            q.src.index = p.dst.index))) := by
  refine ⟨?_, ?_, ?_⟩
  · intro gi i
    rw [hoverGTSel, mem_dedupFirst, List.mem_append, mem_idxWhere, mem_idxWhere]
    constructor
    · rintro (⟨p, hp, hf⟩ | ⟨p, hp, hf⟩)
      · simp only [Bool.and_eq_true, beq_iff_eq] at hf
        exact ⟨p, hp, Or.inl hf⟩
      · rw [Bool.and_eq_true] at hf
        obtain ⟨hcolb, hmem⟩ := hf
        rw [natContains_iff] at hmem
        obtain ⟨k, hk, q, hq, hqcol, hqidx⟩ :=
          (mem_hover_chunkIdxs paths _ _ (fun p => p.dst)).mp hmem
        obtain ⟨q', hq', hfq⟩ := (mem_idxWhere paths _ k).mp hk
        rw [hq'] at hq
        simp only [Option.some_inj] at hq
        rw [hq] at hq' hfq
        rw [Bool.and_eq_true] at hfq
        exact ⟨p, hp, Or.inr ⟨by simpa using hcolb, k, q, hq',
          by simpa using hfq.1, by simpa using hfq.2, hqcol, hqidx⟩⟩
    · rintro ⟨p, hp, hcase | ⟨hcol, k, q, hq, hq1, hq2, hq3, hq4⟩⟩
      · exact Or.inl ⟨p, hp, by simp [hcase.1, hcase.2]⟩
      · refine Or.inr ⟨p, hp, ?_⟩
        rw [Bool.and_eq_true]
        refine ⟨by simpa using hcol, ?_⟩
        rw [natContains_iff]
        refine (mem_hover_chunkIdxs paths _ _ (fun p => p.dst)).mpr
          ⟨k, ?_, q, hq, hq3, hq4⟩
        rw [mem_idxWhere]
        exact ⟨q, hq, by simp [hq1, hq2]⟩
  · intro ci i
    rw [hoverChunkSel, mem_idxWhere]
    constructor
    · rintro ⟨p, hp, hf⟩
      simp only [Bool.or_eq_true, Bool.and_eq_true, beq_iff_eq] at hf
      exact ⟨p, hp, hf⟩
    · rintro ⟨p, hp, hf⟩
      exact ⟨p, hp, by rcases hf with ⟨h1, h2⟩ | ⟨h1, h2⟩ <;> simp [h1, h2]⟩
  · intro ri i
    rw [hoverRespSel, mem_dedupFirst, List.mem_append, mem_idxWhere, mem_idxWhere]
    constructor
    · rintro (⟨p, hp, hf⟩ | ⟨p, hp, hf⟩)
      · simp only [Bool.and_eq_true, beq_iff_eq] at hf
        exact ⟨p, hp, Or.inl hf⟩
      · rw [Bool.and_eq_true] at hf
        obtain ⟨hcolb, hmem⟩ := hf
        rw [natContains_iff] at hmem
        obtain ⟨k, hk, q, hq, hqcol, hqidx⟩ :=
          (mem_hover_chunkIdxs paths _ _ (fun p => p.src)).mp hmem
        obtain ⟨q', hq', hfq⟩ := (mem_idxWhere paths _ k).mp hk
        rw [hq'] at hq
        simp only [Option.some_inj] at hq
        rw [hq] at hq' hfq
        rw [Bool.and_eq_true] at hfq
        exact ⟨p, hp, Or.inr ⟨by simpa using hcolb, k, q, hq',
          by simpa using hfq.1, by simpa using hfq.2, hqcol, hqidx⟩⟩
    · rintro ⟨p, hp, hcase | ⟨hcol, k, q, hq, hq1, hq2, hq3, hq4⟩⟩
      · exact Or.inl ⟨p, hp, by simp [hcase.1, hcase.2]⟩
      · refine Or.inr ⟨p, hp, ?_⟩
        rw [Bool.and_eq_true]
        refine ⟨by simpa using hcol, ?_⟩
        rw [natContains_iff]
        refine (mem_hover_chunkIdxs paths _ _ (fun p => p.src)).mpr
          ⟨k, ?_, q, hq, hq3, hq4⟩
        rw [mem_idxWhere]
        exact ⟨q, hq, by simp [hq1, hq2]⟩

/-- C7 counterexample: with two ground-truth edges sharing one chunk, edge 1
touches the chunk reached in one hop from hovering the first claim, so the
claimed two-hop closure selects it, but the implementation does not; and with
an extra claim edge the chunk hover likewise omits the second hop the claim
demands. -/
theorem hover_two_hop_cex :
    (1 ∈ specTwoHopSel
      [⟨⟨.gt, 0⟩, ⟨.chunk, 0⟩⟩, ⟨⟨.gt, 1⟩, ⟨.chunk, 0⟩⟩] ⟨.gt, 0⟩
      ∧ 1 ∉ hoverGTSel [⟨⟨.gt, 0⟩, ⟨.chunk, 0⟩⟩, ⟨⟨.gt, 1⟩, ⟨.chunk, 0⟩⟩] 0)
    ∧ (2 ∈ specTwoHopSel
      [⟨⟨.gt, 0⟩, ⟨.chunk, 0⟩⟩, ⟨⟨.chunk, 0⟩, ⟨.resp, 0⟩⟩, ⟨⟨.gt, 0⟩, ⟨.chunk, 1⟩⟩]
      ⟨.chunk, 0⟩
      ∧ 2 ∉ hoverChunkSel
        [⟨⟨.gt, 0⟩, ⟨.chunk, 0⟩⟩, ⟨⟨.chunk, 0⟩, ⟨.resp, 0⟩⟩, ⟨⟨.gt, 0⟩, ⟨.chunk, 1⟩⟩]
        0) := by
  decide

theorem hover_selection_characterization_witness :
    1 ∈ hoverGTSel [⟨⟨.gt, 0⟩, ⟨.chunk, 2⟩⟩, ⟨⟨.chunk, 2⟩, ⟨.resp, 1⟩⟩] 0 :=
  ((hover_selection_characterization
      [⟨⟨.gt, 0⟩, ⟨.chunk, 2⟩⟩, ⟨⟨.chunk, 2⟩, ⟨.resp, 1⟩⟩]).1 0 1).mpr
    ⟨⟨⟨.chunk, 2⟩, ⟨.resp, 1⟩⟩, rfl,
      Or.inr ⟨rfl, 0, ⟨⟨.gt, 0⟩, ⟨.chunk, 2⟩⟩, rfl, rfl, rfl, rfl, rfl⟩⟩

theorem strMk_data (s : String) : String.mk s.data = s := by cases s; rfl

theorem hexVal_hexDigitChar : ∀ d : Nat, d < 16 → hexVal (hexDigitChar d) = some d := by
  decide

theorem skipWs_cons_nws {c : Char} (l : List Char) (h : isJsWs c = false) :
    skipWs (c :: l) = c :: l := by
  rw [skipWs, h]
  simp

theorem parseJStringAux_escape : ∀ (l r : List Char),
    parseJStringAux (l.flatMap escChar ++ '"' :: r) = some (l, r)
  | [], r => by
    rw [List.flatMap_nil, List.nil_append, parseJStringAux.eq_def]
    simp
  | c :: l, r => by
    have ih := parseJStringAux_escape l r
    rw [List.flatMap_cons, List.append_assoc, escChar]
    split_ifs with h1 h2 h3 h4 h5 h6 h7 h8
    · subst h1; rw [parseJStringAux.eq_def]; simp [ih]
    · subst h2; rw [parseJStringAux.eq_def]; simp [ih]
    · subst h3; rw [parseJStringAux.eq_def]; simp [ih]
    · subst h4; rw [parseJStringAux.eq_def]; simp [ih]
    · subst h5; rw [parseJStringAux.eq_def]; simp [ih]
    · subst h6; rw [parseJStringAux.eq_def]; simp [ih]
    · subst h7; rw [parseJStringAux.eq_def]; simp [ih]
    · have hh1 : hexVal (hexDigitChar (c.toNat / 16)) = some (c.toNat / 16) :=
        hexVal_hexDigitChar _ (by omega)
      have hh2 : hexVal (hexDigitChar (c.toNat % 16)) = some (c.toNat % 16) :=
        hexVal_hexDigitChar _ (by omega)
      rw [parseJStringAux.eq_def]
      have h0 : hexVal '0' = some 0 := by decide
      simp [ih, hh1, hh2, h0]
      have hv : c.toNat / 16 * 16 + c.toNat % 16 = c.toNat := by omega
      rw [hv, Char.ofNat_toNat]
    · rw [parseJStringAux.eq_def]
      simp [ih, h1, h2, h8]

theorem parseVal_quote (f : Nat) (x : String) (r : List Char) :
    parseVal (f + 1) (quoteChars x ++ r) = some (.str x, r) := by
  rw [quoteChars]
  simp only [List.cons_append, List.append_assoc, List.singleton_append]
  rw [parseVal]
  simp [parseJStringAux_escape, strMk_data]

theorem strBody_one (x : String) : strBody [x] = quoteChars x := rfl

theorem strBody_two (x y : String) (ys : List String) :
    strBody (x :: y :: ys) = quoteChars x ++ ',' :: strBody (y :: ys) := rfl

theorem strBody_cons_head : ∀ (y : String) (ys : List String),
    ∃ t, strBody (y :: ys) = '"' :: t := by
  intro y ys
  cases ys with
  | nil =>
    rw [strBody_one, quoteChars]
    exact ⟨_, rfl⟩
  | cons z zs =>
    rw [strBody_two, quoteChars]
    simp only [List.cons_append]
    exact ⟨_, rfl⟩

theorem strBody_length_ge : ∀ (x : String) (xs : List String),
    xs.length ≤ (strBody (x :: xs)).length := by
  intro x xs
  induction xs generalizing x with
  | nil => simp
  | cons y ys ih =>
    rw [strBody_two]
    have := ih y
    simp only [List.length_append, List.length_cons]
    omega

theorem parseElems_strBody : ∀ (xs : List String) (x : String) (f : Nat)
    (r : List Char), xs.length + 2 ≤ f →
    parseElems f (strBody (x :: xs) ++ ']' :: r) = some ((x :: xs).map .str, r)
  | [], x, f, r, hf => by
    obtain ⟨f', rfl⟩ : ∃ f', f = f' + 1 := ⟨f - 1, by omega⟩
    obtain ⟨f'', rfl⟩ : ∃ f'', f' = f'' + 1 := ⟨f' - 1, by omega⟩
    rw [strBody_one, parseElems, parseVal_quote]
    simp [skipWs, isJsWs]
  | y :: ys, x, f, r, hf => by
    obtain ⟨f', rfl⟩ : ∃ f', f = f' + 1 := ⟨f - 1, by omega⟩
    obtain ⟨f'', rfl⟩ : ∃ f'', f' = f'' + 1 := ⟨f' - 1, by omega⟩
    have ih := parseElems_strBody ys y (f'' + 1) r (by
      simp only [List.length_cons] at hf
      omega)
    rw [strBody_two]
    rw [List.append_assoc, List.cons_append]
    rw [parseElems, parseVal_quote]
    obtain ⟨t, ht⟩ := strBody_cons_head y ys
    rw [ht] at ih ⊢
    simp only [List.cons_append] at ih ⊢
    simp [skipWs, isJsWs, ih]

theorem jsTrimList_bracket (l : List Char) :
    jsTrimList ('[' :: (l ++ [']'])) = '[' :: (l ++ [']']) := by
  rw [jsTrimList, skipWs_cons_nws _ (by decide)]
  have h1 : ('[' :: (l ++ [']'])).reverse = ']' :: (l.reverse ++ ['[']) := by simp
  rw [h1, skipWs_cons_nws _ (by decide)]
  simp

theorem jsonParse_stringify (xs : List String) :
    jsonParse (jsonStringifyStrArr xs) = some (.arr (xs.map .str)) := by
  rw [jsonParse]
  have hdata : (jsonStringifyStrArr xs).data = '[' :: (strBody xs ++ [']']) := rfl
  rw [hdata, skipWs_cons_nws _ (by decide)]
  cases xs with
  | nil =>
    rw [parseVal]
    simp [skipWs, isJsWs]
  | cons x xs' =>
    obtain ⟨t, ht⟩ := strBody_cons_head x xs'
    have hskip2 : skipWs (strBody (x :: xs') ++ [']']) =
        strBody (x :: xs') ++ [']'] := by
      rw [ht, List.cons_append]
      exact skipWs_cons_nws _ (by decide)
    have hhd : (strBody (x :: xs') ++ [']']).head? = some '"' := by
      rw [ht]
      simp
    have hle : xs'.length + 2 ≤ ('[' :: (strBody (x :: xs') ++ [']'])).length := by
      have := strBody_length_ge x xs'
      simp only [List.length_cons, List.length_append]
      omega
    rw [parseVal]
    rw [if_neg (by decide), if_pos rfl, hskip2, hhd]
    rw [if_neg (by decide)]
    rw [parseElems_strBody xs' x _ [] hle]
    simp [skipWs]

theorem extractClaimsGo_arr (f : Nat) (items : List JVal) :
    extractClaimsGo (f + 1) (some (.arr items)) = extractFromArr items := by
  rw [extractClaimsGo]
  simp [jOptTruthy, jTruthy]

/-- C8: extracting claims from the JSON-stringified form of an array of
strings yields exactly the sequence extracted from the array directly: the
string is trimmed (a no-op on the serializer's output), recognized as
JSON-ish by its brackets, parsed back to the original array, and processed
by the same array branch. -/
theorem extractClaims_stringify_roundtrip (a : List String) :
    extractClaims (some (.str (jsonStringifyStrArr a))) =
      extractClaims (some (.arr (a.map .str))) := by
  have hdata : (jsonStringifyStrArr a).data = '[' :: (strBody a ++ [']']) := rfl
  have hne : jsonStringifyStrArr a ≠ "" := by
    intro h
    have h2 := congrArg String.data h
    rw [hdata] at h2
    exact List.noConfusion h2
  have htrim : jsTrim (jsonStringifyStrArr a) = jsonStringifyStrArr a := by
    rw [jsTrim, hdata, jsTrimList_bracket]
    rfl
  have hhead : headIs (jsonStringifyStrArr a) '[' = true := by
    rw [headIs, hdata]
    rfl
  have hlast : lastIs (jsonStringifyStrArr a) ']' = true := by
    rw [lastIs, hdata, ← List.cons_append, List.getLast?_concat]
    rfl
  have hguard : jOptTruthy (some (.str (jsonStringifyStrArr a))) = true := by
    simp [jOptTruthy, jTruthy, hne]
  rw [extractClaims, extractClaims]
  rw [show extractClaimsGo 4 (some (.arr (a.map .str))) =
    extractFromArr (a.map .str) from extractClaimsGo_arr 3 _]
  rw [show (4 : Nat) = 3 + 1 from rfl, extractClaimsGo]
  rw [hguard]
  simp only [Bool.not_true, Bool.false_eq_true, if_false]
  rw [htrim, hhead, hlast]
  simp only [Bool.true_and, Bool.or_eq_true, and_self, if_pos, Bool.and_self]
  rw [jsonParse_stringify]
  simp only [true_or, if_true]
  exact extractClaimsGo_arr 2 (List.map JVal.str a)
